import Mathlib

/-!
Shallow embedding of the TriMesh core from `menpo/shape/mesh/base.py`:
the triangle-list data model, edge-list derivation
(`trilist_to_adjacency_array`), the mask-and-reindex subsetting
(`TriMesh.from_mask` and `TriMesh._isolated_mask`), the normals
dimensionality checks, and the constructor's copy/warning policy.

Triangle tables are lists of index triples, boolean masks are lists of
booleans, and points are lists of coordinate rows.  The external
adjacency utilities (`mask_adjacency_array`, `reindex_adjacency_array`
from `menpo.adjacency`) are not part of the shown source and are
modelled from the spec's interface description.
-/

/-- A triangle: a row `(a, b, c)` of a `(M, 3)` triangle table. -/
abbrev Tri := Nat × Nat × Nat

/-- The three vertex indices of a triangle row, in column order. -/
def triVerts (t : Tri) : List Nat := [t.1, t.2.1, t.2.2]

/-- True when index `i` appears anywhere in the triangle table `tl`
(the flattened-membership test `np.setdiff1d` performs against
`masked_adj`). -/
def occursIn (tl : List Tri) (i : Nat) : Bool :=
  tl.any (fun t => i == t.1 || i == t.2.1 || i == t.2.2)

/-- True when every vertex index of the row `t` is selected by `mask`
(an out-of-range index counts as unselected). -/
def allSelected (mask : List Bool) (t : Tri) : Bool :=
  mask.getD t.1 false && mask.getD t.2.1 false && mask.getD t.2.2 false

/-- Modelled from the spec: the external adjacency-masking capability
`mask_adjacency_array` from `menpo.adjacency` (not in the shown source)
"returns only rows all of whose indices are selected", preserving row
order. -/
def mask_adjacency_array (mask : List Bool) (tl : List Tri) : List Tri :=
  tl.filter (allSelected mask)

/-- The compacted index of `i`: the number of indices below `i` that
occur in the table `tl`. -/
def reindexOf (tl : List Tri) (i : Nat) : Nat :=
  ((List.range i).filter (occursIn tl)).length

/-- Modelled from the spec: the external `reindex_adjacency_array`
capability from `menpo.adjacency` (not in the shown source) "remaps
indices to the dense range implied by the previous masking call":
each surviving index is sent to its rank among the occurring indices. -/
def reindex_adjacency_array (tl : List Tri) : List Tri :=
  tl.map (fun t => (reindexOf tl t.1, reindexOf tl t.2.1, reindexOf tl t.2.2))

/-- `trilist_to_adjacency_array` from `base.py`: the `(a, b)` column
slice, then the `(b, c)` column slice, then the wrap-around `(c, a)`
pairs built by `np.hstack` of the last and first columns. -/
def trilist_to_adjacency_array (tl : List Tri) : List (Nat × Nat) :=
  let wrap_around_adj := (tl.map (fun t => t.2.2)).zip (tl.map (fun t => t.1))
  tl.map (fun t => (t.1, t.2.1)) ++ tl.map (fun t => (t.2.1, t.2.2)) ++ wrap_around_adj

/-- The TriMesh data: a points table (rows of integer coordinates) and
a triangle table. -/
structure TriMesh where
  points : List (List Int)
  trilist : List Tri
deriving DecidableEq

/-- `PointCloud.n_points`: the number of points. -/
def n_points (tm : TriMesh) : Nat := tm.points.length

/-- `PointCloud.n_dims`: the dimensionality of the points. -/
def n_dims (tm : TriMesh) : Nat := (tm.points.headD []).length

/-- `TriMesh.n_tris`: the number of triangles in the triangle list. -/
def n_tris (tm : TriMesh) : Nat := tm.trilist.length

/-- `TriMesh._isolated_mask`: keep a selected index only when it occurs
in a triangle that survives masking (`np.setdiff1d(np.nonzero(mask)[0],
masked_adj)` gives the isolated indices, which are then deselected). -/
def isolated_mask (tl : List Tri) (mask : List Bool) : List Bool :=
  (List.range mask.length).map
    (fun i => mask.getD i false && occursIn (mask_adjacency_array mask tl) i)

/-- Boolean-mask slicing of a row table (`points[mask, :]`). -/
def boolMaskList (mask : List Bool) (xs : List α) : List α :=
  ((xs.zip mask).filter (fun p => p.2)).map (fun p => p.1)

/-- `TriMesh.from_mask`: check the mask shape, take the fast path for an
all-true mask, otherwise correct the mask for isolated vertices, mask
the adjacency array, reindex it and slice the points. -/
def from_mask (tm : TriMesh) (mask : List Bool) : Except String TriMesh :=
  if mask.length ≠ n_points tm then
    Except.error "Mask must be a 1D boolean array of the same number of entries as points in this TriMesh."
  else if mask.all (fun b => b) then
    Except.ok tm
  else
    Except.ok
      { points := boolMaskList (isolated_mask tm.trilist mask) tm.points,
        trilist := reindex_adjacency_array
          (mask_adjacency_array (isolated_mask tm.trilist mask) tm.trilist) }

/-- The type of the external `compute_normals` kernel over
`(points, trilist)`, returning per-vertex and per-face normals. -/
abbrev NormalKernel := List (List Int) → List Tri → List (List Int) × List (List Int)

/-- `TriMesh.vertex_normals`: dimensionality check, then the first
component of the external kernel's result. -/
def vertex_normals (kernel : NormalKernel) (tm : TriMesh) : Except String (List (List Int)) :=
  if n_dims tm ≠ 3 then Except.error "Normals are only valid for 3D meshes"
  else Except.ok (kernel tm.points tm.trilist).1

/-- `TriMesh.face_normals`: dimensionality check, then the second
component of the external kernel's result. -/
def face_normals (kernel : NormalKernel) (tm : TriMesh) : Except String (List (List Int)) :=
  if n_dims tm ≠ 3 then Except.error "Normals are only valid for 3D meshes"
  else Except.ok (kernel tm.points tm.trilist).2

/-- The caller-supplied triangle table of the constructor, together
with its memory-layout property. -/
structure TrilistInput where
  rows : List Tri
  c_contiguous : Bool

/-- The observable outcome of the constructor's trilist handling. -/
structure InitResult where
  trilist : List Tri
  made_copy : Bool
  warned : Bool
deriving DecidableEq

/-- The trilist-handling branch of `TriMesh.__init__`: with `copy`
false a non-contiguous table is copied anyway with a warning, a
contiguous one is stored as-is; with `copy` true a defensive copy is
always made and no warning is emitted. -/
def init_trilist (copy : Bool) (input : TrilistInput) : InitResult :=
  if copy = false then
    if input.c_contiguous = false then
      { trilist := input.rows, made_copy := true, warned := true }
    else
      { trilist := input.rows, made_copy := false, warned := false }
  else
    { trilist := input.rows, made_copy := true, warned := false }

/-! ### Basic lemmas about `getD`, `occursIn` and `isolated_mask` -/

theorem getD_of_le {α : Type} (l : List α) (d : α) {i : Nat} (h : l.length ≤ i) :
    l.getD i d = d := by
  simp [List.getD_eq_getElem?_getD, List.getElem?_eq_none h]

theorem getD_true_lt (mask : List Bool) {i : Nat} (h : mask.getD i false = true) :
    i < mask.length := by
  by_contra hn
  push_neg at hn
  rw [getD_of_le mask false hn] at h
  exact Bool.false_ne_true h

theorem occursIn_iff (tl : List Tri) (i : Nat) :
    occursIn tl i = true ↔ ∃ t ∈ tl, i = t.1 ∨ i = t.2.1 ∨ i = t.2.2 := by
  simp [occursIn, List.any_eq_true, or_assoc]

theorem occursIn_filter (q : Tri → Bool) (tl : List Tri) (i : Nat) :
    occursIn (tl.filter q) i
      = tl.any (fun t => (i == t.1 || i == t.2.1 || i == t.2.2) && q t) := by
  induction tl with
  | nil => rfl
  | cons t ts ih =>
    simp only [occursIn] at ih ⊢
    by_cases hq : q t = true
    · rw [List.filter_cons, if_pos hq, List.any_cons, List.any_cons, ih, hq,
        Bool.and_true]
    · rw [List.filter_cons, if_neg hq, List.any_cons, ih,
        Bool.eq_false_iff.2 hq, Bool.and_false, Bool.false_or]

theorem isolated_mask_length (tl : List Tri) (mask : List Bool) :
    (isolated_mask tl mask).length = mask.length := by
  simp [isolated_mask]

theorem isolated_mask_getD (tl : List Tri) (mask : List Bool) (i : Nat) :
    (isolated_mask tl mask).getD i false
      = (mask.getD i false && occursIn (mask_adjacency_array mask tl) i) := by
  by_cases h : i < mask.length
  · have h' : i < (isolated_mask tl mask).length := by
      rw [isolated_mask_length]; exact h
    rw [List.getD_eq_getElem _ _ h']
    simp [isolated_mask]
  · push_neg at h
    rw [getD_of_le _ _ (by rw [isolated_mask_length]; exact h),
      getD_of_le mask false h, Bool.false_and]

theorem isolated_mask_le (tl : List Tri) (mask : List Bool) (i : Nat)
    (h : (isolated_mask tl mask).getD i false = true) : mask.getD i false = true := by
  rw [isolated_mask_getD, Bool.and_eq_true] at h
  exact h.1

theorem occursIn_mask_adjacency (mask : List Bool) (tl : List Tri) (i : Nat)
    (h : occursIn (mask_adjacency_array mask tl) i = true) :
    mask.getD i false = true := by
  rcases (occursIn_iff _ _).1 h with ⟨t, ht, hv⟩
  have hsel : allSelected mask t = true := (List.mem_filter.1 ht).2
  simp only [allSelected, Bool.and_eq_true] at hsel
  rcases hv with h1 | h1 | h1 <;> rw [h1]
  · exact hsel.1.1
  · exact hsel.1.2
  · exact hsel.2

theorem occurs_masked_lt (mask : List Bool) (tl : List Tri) {i : Nat}
    (h : occursIn (mask_adjacency_array mask tl) i = true) : i < mask.length :=
  getD_true_lt mask (occursIn_mask_adjacency mask tl i h)

theorem allSelected_isolated_le (tl : List Tri) (mask : List Bool) (t : Tri)
    (h : allSelected (isolated_mask tl mask) t = true) : allSelected mask t = true := by
  simp only [allSelected, Bool.and_eq_true] at h ⊢
  exact ⟨⟨isolated_mask_le tl mask t.1 h.1.1, isolated_mask_le tl mask t.2.1 h.1.2⟩,
    isolated_mask_le tl mask t.2.2 h.2⟩

theorem allSelected_isolated (tl : List Tri) (mask : List Bool) {t : Tri} (ht : t ∈ tl) :
    allSelected (isolated_mask tl mask) t = allSelected mask t := by
  by_cases hsel : allSelected mask t = true
  · rw [hsel]
    have htm : t ∈ mask_adjacency_array mask tl := List.mem_filter.2 ⟨ht, hsel⟩
    have h1 : occursIn (mask_adjacency_array mask tl) t.1 = true :=
      (occursIn_iff _ _).2 ⟨t, htm, Or.inl rfl⟩
    have h2 : occursIn (mask_adjacency_array mask tl) t.2.1 = true :=
      (occursIn_iff _ _).2 ⟨t, htm, Or.inr (Or.inl rfl)⟩
    have h3 : occursIn (mask_adjacency_array mask tl) t.2.2 = true :=
      (occursIn_iff _ _).2 ⟨t, htm, Or.inr (Or.inr rfl)⟩
    simp only [allSelected, Bool.and_eq_true] at hsel
    simp only [allSelected, isolated_mask_getD, Bool.and_eq_true]
    exact ⟨⟨⟨hsel.1.1, h1⟩, hsel.1.2, h2⟩, hsel.2, h3⟩
  · have h2 : allSelected (isolated_mask tl mask) t = false := by
      by_contra hc
      rw [Bool.not_eq_false] at hc
      exact hsel (allSelected_isolated_le tl mask t hc)
    rw [h2]
    rw [Bool.not_eq_true] at hsel
    rw [hsel]

theorem mask_adjacency_isolated (tl : List Tri) (mask : List Bool) :
    mask_adjacency_array (isolated_mask tl mask) tl = mask_adjacency_array mask tl :=
  List.filter_congr (fun _ ht => allSelected_isolated tl mask ht)

theorem isolated_mask_idem (tl : List Tri) (mask : List Bool) :
    isolated_mask tl (isolated_mask tl mask) = isolated_mask tl mask := by
  apply List.ext_getElem
  · simp [isolated_mask_length]
  · intro i h1 h2
    rw [← List.getD_eq_getElem _ false h1, ← List.getD_eq_getElem _ false h2,
      isolated_mask_getD, mask_adjacency_isolated, isolated_mask_getD,
      Bool.and_assoc, Bool.and_self]

/-! ### Rank lemmas for the dense reindexing -/

theorem filter_range_succ (p : Nat → Bool) (n : Nat) :
    (List.range (n + 1)).filter p
      = (List.range n).filter p ++ (if p n then [n] else []) := by
  rw [List.range_succ, List.filter_append]
  congr 1
  by_cases h : p n = true <;> simp [List.filter_cons, h]

theorem rank_mono (p : Nat → Bool) {a b : Nat} (h : a ≤ b) :
    ((List.range a).filter p).length ≤ ((List.range b).filter p).length := by
  induction b with
  | zero =>
    have : a = 0 := Nat.le_zero.1 h
    rw [this]
  | succ b ih =>
    rcases Nat.lt_or_ge a (b + 1) with hl | hg
    · have ha : a ≤ b := Nat.lt_succ_iff.1 hl
      calc ((List.range a).filter p).length
          ≤ ((List.range b).filter p).length := ih ha
        _ ≤ ((List.range (b + 1)).filter p).length := by
            rw [filter_range_succ, List.length_append]
            exact Nat.le_add_right _ _
    · have : a = b + 1 := Nat.le_antisymm h hg
      rw [this]

theorem rank_lt_of_occurs (p : Nat → Bool) {i n : Nat} (hp : p i = true) (hin : i < n) :
    ((List.range i).filter p).length < ((List.range n).filter p).length := by
  have h1 : ((List.range (i + 1)).filter p).length
      = ((List.range i).filter p).length + 1 := by
    rw [filter_range_succ, List.length_append, if_pos hp]
    rfl
  have h2 : ((List.range (i + 1)).filter p).length ≤ ((List.range n).filter p).length :=
    rank_mono p hin
  omega

theorem rank_surj (p : Nat → Bool) (n : Nat) :
    ∀ j, j < ((List.range n).filter p).length →
      ∃ i, i < n ∧ p i = true ∧ ((List.range i).filter p).length = j := by
  induction n with
  | zero => intro j hj; simp at hj
  | succ n ih =>
    intro j hj
    rw [filter_range_succ, List.length_append] at hj
    by_cases hp : p n = true
    · rw [if_pos hp] at hj
      rcases Nat.lt_or_ge j ((List.range n).filter p).length with hl | hg
      · rcases ih j hl with ⟨i, h1, h2, h3⟩
        exact ⟨i, Nat.lt_succ_of_lt h1, h2, h3⟩
      · have hje : j = ((List.range n).filter p).length := by
          simp at hj
          omega
        exact ⟨n, Nat.lt_succ_self n, hp, hje.symm⟩
    · rw [if_neg hp] at hj
      simp at hj
      rcases ih j hj with ⟨i, h1, h2, h3⟩
      exact ⟨i, Nat.lt_succ_of_lt h1, h2, h3⟩

theorem reindexOf_lt {tl : List Tri} {v n : Nat} (hocc : occursIn tl v = true)
    (hbound : ∀ i, occursIn tl i = true → i < n) :
    reindexOf tl v < ((List.range n).filter (occursIn tl)).length :=
  rank_lt_of_occurs (occursIn tl) hocc (hbound v hocc)

/-! ### Counting lemmas for the corrected mask and the sliced points -/

theorem countTrue_isolated (tl : List Tri) (mask : List Bool) :
    List.countP (fun b => b) (isolated_mask tl mask)
      = ((List.range mask.length).filter (occursIn (mask_adjacency_array mask tl))).length := by
  show List.countP (fun b => b) ((List.range mask.length).map _) = _
  rw [List.countP_map, ← List.countP_eq_length_filter]
  apply List.countP_congr
  intro i _
  show ((mask.getD i false && occursIn (mask_adjacency_array mask tl) i) = true) ↔ _
  rw [Bool.and_eq_true]
  constructor
  · exact fun h => h.2
  · exact fun h => ⟨occursIn_mask_adjacency mask tl i h, h⟩

theorem boolMaskList_length {α : Type} (mask : List Bool) (xs : List α)
    (h : xs.length = mask.length) :
    (boolMaskList mask xs).length = List.countP (fun b => b) mask := by
  induction mask generalizing xs with
  | nil =>
    cases xs with
    | nil => rfl
    | cons a as => simp at h
  | cons b bs ih =>
    cases xs with
    | nil => simp at h
    | cons a as =>
      have h' : as.length = bs.length := by simpa using h
      by_cases hb : b = true <;>
        simp [boolMaskList, List.filter_cons, hb, List.countP_cons, ← ih as h',
          boolMaskList]

theorem boolMaskList_nil_of_false {α : Type} (m : List Bool) (xs : List α)
    (h : ∀ b ∈ m, b = false) : boolMaskList m xs = [] := by
  show ((xs.zip m).filter (fun p => p.2)).map (fun p => p.1) = []
  rw [List.filter_eq_nil_iff.2]
  · rfl
  · intro p hp
    have hm : p.2 ∈ m := (List.of_mem_zip (a := p.1) (b := p.2) (by simpa using hp)).2
    simp [h p.2 hm]

/-! ### Branch lemmas for `from_mask` -/

theorem from_mask_masked_branch (tm : TriMesh) (mask : List Bool)
    (hlen : mask.length = n_points tm) (hna : mask.all (fun b => b) = false) :
    from_mask tm mask = Except.ok
      { points := boolMaskList (isolated_mask tm.trilist mask) tm.points,
        trilist := reindex_adjacency_array
          (mask_adjacency_array (isolated_mask tm.trilist mask) tm.trilist) } := by
  unfold from_mask
  rw [if_neg (fun hc => hc hlen), if_neg (by rw [hna]; exact Bool.false_ne_true)]

theorem from_mask_ok_inv (tm : TriMesh) (mask : List Bool) (tm' : TriMesh)
    (hna : mask.all (fun b => b) = false)
    (hok : from_mask tm mask = Except.ok tm') :
    mask.length = n_points tm ∧
    tm' = { points := boolMaskList (isolated_mask tm.trilist mask) tm.points,
            trilist := reindex_adjacency_array
              (mask_adjacency_array (isolated_mask tm.trilist mask) tm.trilist) } := by
  by_cases h1 : mask.length = n_points tm
  · rw [from_mask_masked_branch tm mask h1 hna] at hok
    injection hok with h
    exact ⟨h1, h.symm⟩
  · unfold from_mask at hok
    rw [if_pos h1] at hok
    exact absurd hok (by simp)

/-! ### Claim theorems (easy group) -/

/-- C5: `from_mask` fails (with the shape-mismatch `ValueError`) exactly
when the mask's length differs from the mesh's point count; being a pure
function of the source mesh, it leaves the source mesh unchanged in
every case. -/
theorem from_mask_error_iff (tm : TriMesh) (mask : List Bool) :
    (∃ e, from_mask tm mask = Except.error e) ↔ mask.length ≠ n_points tm := by
  unfold from_mask
  by_cases h : mask.length ≠ n_points tm
  · simp [h]
  · rw [if_neg h]
    by_cases h2 : mask.all (fun b => b) = true <;> simp [h, h2]

/-- C6: on a mask selecting every vertex, `from_mask` returns an
unmodified copy (same points and triangle table), and applying it twice
with that mask again yields the same tables. -/
theorem from_mask_all_true (tm : TriMesh) (mask : List Bool)
    (hlen : mask.length = n_points tm) (hall : mask.all (fun b => b) = true) :
    from_mask tm mask = Except.ok tm ∧
    (from_mask tm mask).bind (fun t => from_mask t mask) = Except.ok tm := by
  have h1 : from_mask tm mask = Except.ok tm := by
    unfold from_mask
    rw [if_neg (fun hc => hc hlen), if_pos hall]
  refine ⟨h1, ?_⟩
  rw [h1]
  show from_mask tm mask = Except.ok tm
  exact h1

/-- C6 witness: a concrete all-true mask returns the mesh unchanged. -/
theorem from_mask_all_true_witness :
    from_mask ⟨[[0, 0], [1, 0], [1, 1]], [(0, 1, 2)]⟩ [true, true, true]
      = Except.ok ⟨[[0, 0], [1, 0], [1, 1]], [(0, 1, 2)]⟩ :=
  (from_mask_all_true ⟨[[0, 0], [1, 0], [1, 1]], [(0, 1, 2)]⟩ [true, true, true]
    rfl rfl).1

/-- C8: `vertex_normals` and `face_normals` fail exactly when the
dimensionality is not 3 (for any normal kernel), while `n_tris` always
returns the stored number of triangles. -/
theorem normals_dimensionality_check (kernel : NormalKernel) (tm : TriMesh) :
    ((∃ e, vertex_normals kernel tm = Except.error e) ↔ n_dims tm ≠ 3) ∧
    ((∃ e, face_normals kernel tm = Except.error e) ↔ n_dims tm ≠ 3) ∧
    n_tris tm = tm.trilist.length := by
  refine ⟨?_, ?_, rfl⟩
  · unfold vertex_normals
    by_cases h : n_dims tm ≠ 3 <;> simp [h]
  · unfold face_normals
    by_cases h : n_dims tm ≠ 3 <;> simp [h]

/-- C9: the constructor's trilist handling — `copy = true` always makes
a defensive copy and never warns; `copy = false` on a non-contiguous
table copies anyway and warns; `copy = false` on a contiguous table
neither copies nor warns. -/
theorem init_trilist_copy_semantics (c : Bool) (input : TrilistInput) :
    (c = true →
      (init_trilist c input).made_copy = true ∧ (init_trilist c input).warned = false) ∧
    (c = false → input.c_contiguous = false →
      (init_trilist c input).made_copy = true ∧ (init_trilist c input).warned = true) ∧
    (c = false → input.c_contiguous = true →
      (init_trilist c input).made_copy = false ∧ (init_trilist c input).warned = false) := by
  refine ⟨fun hc => ?_, fun hc hl => ?_, fun hc hl => ?_⟩
  · simp [init_trilist, hc]
  · simp [init_trilist, hc, hl]
  · simp [init_trilist, hc, hl]

/-- C9 witness: requesting no-copy with a non-contiguous table makes a
copy and warns. -/
theorem init_trilist_copy_semantics_witness :
    (init_trilist false ⟨[], false⟩).made_copy = true ∧
    (init_trilist false ⟨[], false⟩).warned = true :=
  (init_trilist_copy_semantics false ⟨[], false⟩).2.1 rfl rfl

/-- C10: re-masking the triangle table with the corrected mask keeps
exactly the same surviving rows in the same order as masking with the
caller's mask, and the isolated-vertex correction is a fixpoint: the
corrected mask has no isolated vertices of its own. -/
theorem isolated_mask_fixpoint (tl : List Tri) (mask : List Bool) :
    mask_adjacency_array (isolated_mask tl mask) tl = mask_adjacency_array mask tl ∧
    isolated_mask tl (isolated_mask tl mask) = isolated_mask tl mask :=
  ⟨mask_adjacency_isolated tl mask, isolated_mask_idem tl mask⟩

/-- C1 counterexample: an all-true mask takes the fast path and returns
an unmodified copy, so a mesh whose single vertex lies in no triangle
keeps that isolated vertex. -/
theorem from_mask_all_true_keeps_isolated_vertex :
    ([true] : List Bool).length = n_points ⟨[[0, 0]], []⟩ ∧
    from_mask ⟨[[0, 0]], []⟩ [true] = Except.ok ⟨[[0, 0]], []⟩ ∧
    n_points ⟨[[0, 0]], []⟩ = 1 ∧
    occursIn (TriMesh.mk [[0, 0]] []).trilist 0 = false :=
  ⟨rfl, rfl, rfl, rfl⟩

/-- C7 counterexample: a mask that selects every vertex of a mesh with
no complete triangle (here: no triangles at all) takes the fast path
and returns the nonempty point set unchanged, not an empty mesh. -/
theorem from_mask_no_triangle_counterexample :
    ([true, true] : List Bool).length = n_points ⟨[[0, 0], [1, 1]], []⟩ ∧
    (TriMesh.mk [[0, 0], [1, 1]] []).trilist.all
      (fun t => ! allSelected [true, true] t) = true ∧
    from_mask ⟨[[0, 0], [1, 1]], []⟩ [true, true]
      = Except.ok ⟨[[0, 0], [1, 1]], []⟩ ∧
    n_points ⟨[[0, 0], [1, 1]], []⟩ ≠ 0 := by
  refine ⟨rfl, rfl, rfl, by decide⟩

/-- C3: the corrected mask is a pointwise subset of the caller's mask,
and it equals the caller's mask except that it deselects exactly those
selected vertices belonging to no triangle all three of whose vertices
the caller's mask selects. -/
theorem isolated_mask_characterization (tl : List Tri) (mask : List Bool) :
    (isolated_mask tl mask).length = mask.length ∧
    ∀ i, i < mask.length →
      ((isolated_mask tl mask).getD i false = true → mask.getD i false = true) ∧
      (isolated_mask tl mask).getD i false
        = (mask.getD i false &&
            tl.any (fun t => (i == t.1 || i == t.2.1 || i == t.2.2) && allSelected mask t)) := by
  refine ⟨isolated_mask_length tl mask, fun i _ => ⟨isolated_mask_le tl mask i, ?_⟩⟩
  rw [isolated_mask_getD,
    show mask_adjacency_array mask tl = tl.filter (allSelected mask) from rfl,
    occursIn_filter]

/-- C3 witness: concrete evaluation of the characterization — vertex 2
of the triangle `(0, 1, 2)` is selected but the triangle is not fully
selected, so it is deselected. -/
theorem isolated_mask_characterization_witness :
    (isolated_mask [(0, 1, 2)] [true, false, true]).getD 2 false
      = ([true, false, true].getD 2 false &&
          ([(0, 1, 2)] : List Tri).any
            (fun t => (2 == t.1 || 2 == t.2.1 || 2 == t.2.2) && allSelected [true, false, true] t)) :=
  ((isolated_mask_characterization [(0, 1, 2)] [true, false, true]).2 2 (by decide)).2

/-- C7 (amended): for every mask of the right length that does not
select every vertex and whose selected vertices include no complete
triangle, `from_mask` returns the empty mesh.  (As stated the claim
fails: an all-true mask on a mesh with no complete triangle takes the
fast path and keeps its points — see the counterexample.) -/
theorem from_mask_no_complete_triangle (tm : TriMesh) (mask : List Bool)
    (hlen : mask.length = n_points tm)
    (hna : mask.all (fun b => b) = false)
    (hnone : ∀ t ∈ tm.trilist, allSelected mask t = false) :
    from_mask tm mask = Except.ok ⟨[], []⟩ := by
  rw [from_mask_masked_branch tm mask hlen hna]
  have hmA : mask_adjacency_array mask tm.trilist = [] := by
    apply List.filter_eq_nil_iff.2
    intro t ht
    rw [hnone t ht]
    exact Bool.false_ne_true
  have him : ∀ b ∈ isolated_mask tm.trilist mask, b = false := by
    intro b hb
    rcases List.mem_map.1 hb with ⟨i, _, rfl⟩
    rw [hmA]
    show (mask.getD i false && occursIn [] i) = false
    rw [show occursIn [] i = false from rfl, Bool.and_false]
  have hpts : boolMaskList (isolated_mask tm.trilist mask) tm.points = [] :=
    boolMaskList_nil_of_false _ _ him
  have htl : mask_adjacency_array (isolated_mask tm.trilist mask) tm.trilist = [] := by
    rw [mask_adjacency_isolated, hmA]
  rw [hpts, htl]
  rfl

/-- C7 amended-claim witness: a mask keeping only vertex 0 of a single
degenerate-free triangle mesh leaves no complete triangle, and the
result is the empty mesh. -/
theorem from_mask_no_complete_triangle_witness :
    from_mask ⟨[[0, 0], [1, 1]], [(0, 1, 1)]⟩ [true, false] = Except.ok ⟨[], []⟩ :=
  from_mask_no_complete_triangle ⟨[[0, 0], [1, 1]], [(0, 1, 1)]⟩ [true, false]
    rfl rfl (by decide)

/-- C4: the edge table has exactly `3 * triangle_count` rows and is the
ordered concatenation of the `(a, b)` block, the `(b, c)` block and the
wrap-around `(c, a)` block, each preserving triangle order row for
row, with no deduplication or sorting. -/
theorem trilist_to_adjacency_array_spec (tl : List Tri) :
    (trilist_to_adjacency_array tl).length = 3 * tl.length ∧
    ∀ m, m < tl.length →
      (trilist_to_adjacency_array tl).getD m (0, 0)
          = ((tl.getD m (0, 0, 0)).1, (tl.getD m (0, 0, 0)).2.1) ∧
      (trilist_to_adjacency_array tl).getD (tl.length + m) (0, 0)
          = ((tl.getD m (0, 0, 0)).2.1, (tl.getD m (0, 0, 0)).2.2) ∧
      (trilist_to_adjacency_array tl).getD (2 * tl.length + m) (0, 0)
          = ((tl.getD m (0, 0, 0)).2.2, (tl.getD m (0, 0, 0)).1) := by
  have hA : (tl.map (fun t => (t.1, t.2.1))).length = tl.length := List.length_map tl _
  have hB : (tl.map (fun t => (t.2.1, t.2.2))).length = tl.length := List.length_map tl _
  have hW : ((tl.map (fun t => t.2.2)).zip (tl.map (fun t => t.1))).length = tl.length := by
    rw [List.length_zip, List.length_map, List.length_map, Nat.min_self]
  have hAB : (tl.map (fun t => (t.1, t.2.1)) ++ tl.map (fun t => (t.2.1, t.2.2))).length
      = 2 * tl.length := by
    rw [List.length_append, hA, hB]; omega
  constructor
  · show ((tl.map (fun t => (t.1, t.2.1)) ++ tl.map (fun t => (t.2.1, t.2.2)))
      ++ (tl.map (fun t => t.2.2)).zip (tl.map (fun t => t.1))).length = 3 * tl.length
    rw [List.length_append, hAB, hW]; omega
  · intro m hm
    refine ⟨?_, ?_, ?_⟩
    · show ((tl.map (fun t => (t.1, t.2.1)) ++ tl.map (fun t => (t.2.1, t.2.2)))
        ++ (tl.map (fun t => t.2.2)).zip (tl.map (fun t => t.1))).getD m (0, 0) = _
      rw [List.getD_append _ _ _ _ (by rw [hAB]; omega),
        List.getD_append _ _ _ _ (by rw [hA]; omega),
        List.getD_eq_getElem _ _ (by rw [hA]; omega), List.getElem_map,
        List.getD_eq_getElem tl _ hm]
    · show ((tl.map (fun t => (t.1, t.2.1)) ++ tl.map (fun t => (t.2.1, t.2.2)))
        ++ (tl.map (fun t => t.2.2)).zip (tl.map (fun t => t.1))).getD
          (tl.length + m) (0, 0) = _
      rw [List.getD_append _ _ _ _ (by rw [hAB]; omega),
        List.getD_append_right _ _ _ _ (by rw [hA]; omega)]
      simp only [List.length_map, Nat.add_sub_cancel_left]
      rw [List.getD_eq_getElem _ _ (by rw [hB]; omega), List.getElem_map,
        List.getD_eq_getElem tl _ hm]
    · show ((tl.map (fun t => (t.1, t.2.1)) ++ tl.map (fun t => (t.2.1, t.2.2)))
        ++ (tl.map (fun t => t.2.2)).zip (tl.map (fun t => t.1))).getD
          (2 * tl.length + m) (0, 0) = _
      rw [List.getD_append_right _ _ _ _ (by rw [hAB]; omega)]
      have hidx : 2 * tl.length + m
          - (tl.map (fun t => (t.1, t.2.1)) ++ tl.map (fun t => (t.2.1, t.2.2))).length
          = m := by
        rw [hAB]; omega
      rw [hidx, List.getD_eq_getElem _ _ (by rw [hW]; omega), List.getElem_zip,
        List.getElem_map, List.getElem_map, List.getD_eq_getElem tl _ hm]

/-- C4 witness: concrete evaluation on a one-triangle table — the
wrap-around row is `(c, a)`. -/
theorem trilist_to_adjacency_array_spec_witness :
    (trilist_to_adjacency_array [(1, 2, 3)]).getD
        (2 * ([(1, 2, 3)] : List Tri).length + 0) (0, 0)
      = ((([(1, 2, 3)] : List Tri).getD 0 (0, 0, 0)).2.2,
          (([(1, 2, 3)] : List Tri).getD 0 (0, 0, 0)).1) :=
  ((trilist_to_adjacency_array_spec [(1, 2, 3)]).2 0 (by decide)).2.2

/-- C1 (amended): whenever the mask does not select every vertex, every
vertex of the mesh returned by `from_mask` appears in at least one
triangle of that mesh.  (As stated — including the all-true mask — the
claim fails on the fast path: see the counterexample.) -/
theorem from_mask_no_isolated_vertices (tm : TriMesh) (mask : List Bool) (tm' : TriMesh)
    (hna : mask.all (fun b => b) = false)
    (hok : from_mask tm mask = Except.ok tm')
    (j : Nat) (hj : j < tm'.points.length) :
    occursIn tm'.trilist j = true := by
  obtain ⟨hlen, rfl⟩ := from_mask_ok_inv tm mask tm' hna hok
  have hplen : (boolMaskList (isolated_mask tm.trilist mask) tm.points).length
      = List.countP (fun b => b) (isolated_mask tm.trilist mask) :=
    boolMaskList_length _ _ (by rw [isolated_mask_length]; exact hlen.symm)
  have hKey : (boolMaskList (isolated_mask tm.trilist mask) tm.points).length
      = ((List.range mask.length).filter
          (occursIn (mask_adjacency_array (isolated_mask tm.trilist mask) tm.trilist))).length := by
    rw [hplen, mask_adjacency_isolated]
    exact countTrue_isolated tm.trilist mask
  rw [hKey] at hj
  obtain ⟨i, _, hocc, hrank⟩ :=
    rank_surj (occursIn (mask_adjacency_array (isolated_mask tm.trilist mask) tm.trilist))
      mask.length j hj
  obtain ⟨t, htm, hv⟩ := (occursIn_iff _ i).1 hocc
  apply (occursIn_iff _ _).2
  refine ⟨_, List.mem_map.2 ⟨t, htm, rfl⟩, ?_⟩
  rcases hv with h | h | h
  · exact Or.inl (by rw [← hrank, h]; rfl)
  · exact Or.inr (Or.inl (by rw [← hrank, h]; rfl))
  · exact Or.inr (Or.inr (by rw [← hrank, h]; rfl))

/-- C1 amended-claim witness: masking out vertex 3 of the square mesh
keeps triangle `(0, 1, 2)`, and vertex 0 of the result lies in it. -/
theorem from_mask_no_isolated_vertices_witness :
    occursIn (TriMesh.mk [[0, 0], [1, 0], [1, 1]] [(0, 1, 2)]).trilist 0 = true :=
  from_mask_no_isolated_vertices
    ⟨[[0, 0], [1, 0], [1, 1], [0, 1]], [(0, 1, 2), (0, 2, 3)]⟩
    [true, true, true, false]
    ⟨[[0, 0], [1, 0], [1, 1]], [(0, 1, 2)]⟩
    rfl rfl 0 (by decide)

/-- C2: on the masking path the result's point count equals the number
of true entries of the corrected mask, every index in its triangle
table is below that point count, the triangle table is exactly the
reindexing of the rows of the original table surviving the corrected
mask, and every original triangle with a vertex outside the caller's
mask or with a now-isolated vertex is absent from those surviving
rows. -/
theorem from_mask_postconditions (tm : TriMesh) (mask : List Bool) (tm' : TriMesh)
    (hna : mask.all (fun b => b) = false)
    (hok : from_mask tm mask = Except.ok tm') :
    tm'.points.length = List.countP (fun b => b) (isolated_mask tm.trilist mask) ∧
    (∀ t' ∈ tm'.trilist,
      t'.1 < tm'.points.length ∧ t'.2.1 < tm'.points.length ∧
        t'.2.2 < tm'.points.length) ∧
    tm'.trilist = reindex_adjacency_array
      (mask_adjacency_array (isolated_mask tm.trilist mask) tm.trilist) ∧
    (∀ t ∈ tm.trilist,
      (∃ v ∈ triVerts t, mask.getD v false = false ∨
        occursIn (mask_adjacency_array mask tm.trilist) v = false) →
      t ∉ mask_adjacency_array (isolated_mask tm.trilist mask) tm.trilist) := by
  obtain ⟨hlen, rfl⟩ := from_mask_ok_inv tm mask tm' hna hok
  have hplen : (boolMaskList (isolated_mask tm.trilist mask) tm.points).length
      = List.countP (fun b => b) (isolated_mask tm.trilist mask) :=
    boolMaskList_length _ _ (by rw [isolated_mask_length]; exact hlen.symm)
  have hKey : (boolMaskList (isolated_mask tm.trilist mask) tm.points).length
      = ((List.range mask.length).filter
          (occursIn (mask_adjacency_array (isolated_mask tm.trilist mask) tm.trilist))).length := by
    rw [hplen, mask_adjacency_isolated]
    exact countTrue_isolated tm.trilist mask
  have hbound : ∀ i,
      occursIn (mask_adjacency_array (isolated_mask tm.trilist mask) tm.trilist) i = true →
      i < mask.length := by
    intro i hi
    have := occurs_masked_lt (isolated_mask tm.trilist mask) tm.trilist hi
    rwa [isolated_mask_length] at this
  refine ⟨hplen, ?_, rfl, ?_⟩
  · intro t' ht'
    rcases List.mem_map.1 ht' with ⟨t, htm, rfl⟩
    have h1 : occursIn (mask_adjacency_array (isolated_mask tm.trilist mask) tm.trilist) t.1
        = true := (occursIn_iff _ _).2 ⟨t, htm, Or.inl rfl⟩
    have h2 : occursIn (mask_adjacency_array (isolated_mask tm.trilist mask) tm.trilist) t.2.1
        = true := (occursIn_iff _ _).2 ⟨t, htm, Or.inr (Or.inl rfl)⟩
    have h3 : occursIn (mask_adjacency_array (isolated_mask tm.trilist mask) tm.trilist) t.2.2
        = true := (occursIn_iff _ _).2 ⟨t, htm, Or.inr (Or.inr rfl)⟩
    refine ⟨?_, ?_, ?_⟩ <;> rw [hKey]
    · exact reindexOf_lt h1 hbound
    · exact reindexOf_lt h2 hbound
    · exact reindexOf_lt h3 hbound
  · rintro t _ ⟨v, hvmem, hvor⟩ hcontra
    have hsel : allSelected (isolated_mask tm.trilist mask) t = true :=
      (List.mem_filter.1 hcontra).2
    simp only [allSelected, Bool.and_eq_true] at hsel
    have hv : (isolated_mask tm.trilist mask).getD v false = true := by
      simp only [triVerts, List.mem_cons, List.not_mem_nil, or_false] at hvmem
      rcases hvmem with h | h | h <;> rw [h]
      · exact hsel.1.1
      · exact hsel.1.2
      · exact hsel.2
    rw [isolated_mask_getD, Bool.and_eq_true] at hv
    rcases hvor with h | h
    · rw [hv.1] at h; exact Bool.false_ne_true h.symm
    · rw [hv.2] at h; exact Bool.false_ne_true h.symm

/-- C2 witness: the square example — masking out vertex 3 gives 3
points, the number of true entries of the corrected mask. -/
theorem from_mask_postconditions_witness :
    (TriMesh.mk [[0, 0], [1, 0], [1, 1]] [(0, 1, 2)]).points.length
      = List.countP (fun b => b)
          (isolated_mask [(0, 1, 2), (0, 2, 3)] [true, true, true, false]) :=
  (from_mask_postconditions
    ⟨[[0, 0], [1, 0], [1, 1], [0, 1]], [(0, 1, 2), (0, 2, 3)]⟩
    [true, true, true, false]
    ⟨[[0, 0], [1, 0], [1, 1]], [(0, 1, 2)]⟩
    rfl rfl).1
